import Mathlib

/-!
Verification of the webhook signature-verification and transaction-reconciliation
core of the payment-relay server (`server.js` and its sibling revisions).

The JavaScript source is shallowly embedded:
* JSON values become the mutual inductive `Json` (numbers are modelled as `Int`,
  which covers every numeric literal the reconciliation paths manipulate);
* `JSON.parse` and `crypto.createHmac(...).digest("hex")` are ambient Node
  library functions, so they are passed as explicit function parameters
  (`jparse`, `hmacHex`) — every theorem is parametric in them and therefore
  holds for the real library implementations;
* JavaScript exceptions are modelled with `Except Unit`: `body.data` on a
  `null` body throws, and the route-level `try/catch` absorbs the error;
* the Google-Sheets ledger is a list of rows, each row a list of cell strings,
  with the `A2:M` range semantics of the calls the handler performs.
-/

/-! ### JSON values -/

mutual

inductive Json where
  | null : Json
  | bool (b : Bool) : Json
  | num (n : Int) : Json
  | str (s : String) : Json
  | arr (xs : JsonList) : Json
  | obj (fs : JsonFields) : Json

inductive JsonList where
  | nil : JsonList
  | cons (hd : Json) (tl : JsonList) : JsonList

inductive JsonFields where
  | nil : JsonFields
  | cons (k : String) (v : Json) (tl : JsonFields) : JsonFields

end

/-! ### `sortObjDataByKey` (server.js lines 36–46)

`Object.keys(data).sort()` sorts keys in ascending lexicographic order and the
`reduce` rebuilds the object in that order, recursing into each value.  Sorting
the keys commutes with recursing into the values, so the embedding recurses
first (structurally) and then sorts the field list; the result is identical. -/

def insertField (k : String) (v : Json) : JsonFields → JsonFields
  | .nil => .cons k v .nil
  | .cons k' v' tl =>
    if k < k' then .cons k v (.cons k' v' tl) else .cons k' v' (insertField k v tl)

def insortFields : JsonFields → JsonFields
  | .nil => .nil
  | .cons k v tl => insertField k v (insortFields tl)

mutual

def sortObjDataByKey : Json → Json
  | .null => .null
  | .bool b => .bool b
  | .num n => .num n
  | .str s => .str s
  | .arr xs => .arr (sortJsonList xs)
  | .obj fs => .obj (insortFields (sortJsonFields fs))

def sortJsonList : JsonList → JsonList
  | .nil => .nil
  | .cons x tl => .cons (sortObjDataByKey x) (sortJsonList tl)

def sortJsonFields : JsonFields → JsonFields
  | .nil => .nil
  | .cons k v tl => .cons k (sortObjDataByKey v) (sortJsonFields tl)

end

/-! ### `JSON.stringify` (compact serialization, as called on the sorted data) -/

def hexDigitCh (n : Nat) : Char :=
  if n < 10 then Char.ofNat (48 + n) else Char.ofNat (87 + n)

def escChar (c : Char) : String :=
  if c = '"' then "\\\""
  else if c = '\\' then "\\\\"
  else if c = '\n' then "\\n"
  else if c = '\r' then "\\r"
  else if c = '\t' then "\\t"
  else if c = '\x08' then "\\b"
  else if c = '\x0c' then "\\f"
  else if c.toNat < 32 then
    "\\u00" ++ String.singleton (hexDigitCh (c.toNat / 16)) ++
      String.singleton (hexDigitCh (c.toNat % 16))
  else String.singleton c

def jsonQuote (s : String) : String :=
  "\"" ++ String.join (s.toList.map escChar) ++ "\""

mutual

def stringify : Json → String
  | .null => "null"
  | .bool true => "true"
  | .bool false => "false"
  | .num n => toString n
  | .str s => jsonQuote s
  | .arr xs => "[" ++ stringifyList xs ++ "]"
  | .obj fs => "\x7b" ++ stringifyFields fs ++ "\x7d"

def stringifyList : JsonList → String
  | .nil => ""
  | .cons x .nil => stringify x
  | .cons x (.cons y tl) => stringify x ++ "," ++ stringifyList (.cons y tl)

def stringifyFields : JsonFields → String
  | .nil => ""
  | .cons k v .nil => jsonQuote k ++ ":" ++ stringify v
  | .cons k v (.cons k' v' tl) =>
    jsonQuote k ++ ":" ++ stringify v ++ "," ++ stringifyFields (.cons k' v' tl)

end

/-! ### JavaScript value helpers used by the handler -/

def findField (k : String) : JsonFields → Option Json
  | .nil => none
  | .cons k' v tl => if k' = k then some v else findField k tl

/-- Property access `body.k` on a non-`null` value: `none` models `undefined`. -/
def jsMember (body : Json) (k : String) : Option Json :=
  match body with
  | .obj fs => findField k fs
  | _ => none

/-- JavaScript falsiness of a JSON value. -/
def jsFalsy : Json → Bool
  | .null => true
  | .bool b => !b
  | .num n => n == 0
  | .str s => s == ""
  | .arr _ => false
  | .obj _ => false

/-- `body.data || {}` (server.js line 72), for a non-`null` parsed body. -/
def dataObjOf (body : Json) : Json :=
  match jsMember body "data" with
  | some v => if jsFalsy v then .obj .nil else v
  | none => .obj .nil

/-! ### The signature-header regex `t=(\d+),v1=([a-f0-9]+)` (server.js line 60)

`String.prototype.match` searches for the leftmost position at which the
pattern matches.  `(\d+)` is a maximal digit run that must be followed by the
literal `,v1=`; `([a-f0-9]+)` is a maximal run of lowercase-hex characters
(the pattern has no `i` flag and nothing needs to follow it). -/

def isHexLower (c : Char) : Bool :=
  c.isDigit || ('a' ≤ c && c ≤ 'f')

def sigAfterTEq (rest : List Char) : Option (List Char × List Char) :=
  let ds := rest.takeWhile Char.isDigit
  if ds.isEmpty then none
  else
    match rest.dropWhile Char.isDigit with
    | c1 :: c2 :: c3 :: c4 :: rest3 =>
      if c1 = ',' && c2 = 'v' && c3 = '1' && c4 = '=' then
        let hs := rest3.takeWhile isHexLower
        if hs.isEmpty then none else some (ds, hs)
      else none
    | _ => none

def sigAt : List Char → Option (List Char × List Char)
  | c1 :: c2 :: rest => if c1 = 't' && c2 = '=' then sigAfterTEq rest else none
  | _ => none

def searchSig : List Char → Option (List Char × List Char)
  | [] => none
  | c :: cs => (sigAt (c :: cs)).orElse fun _ => searchSig cs

def parseSigHeader (s : String) : Option (String × String) :=
  (searchSig s.toList).map fun p => (p.1.asString, p.2.asString)

/-! ### `verifyCassoSignature` (server.js lines 55–87)

`hmacHex secret msg` stands for
`crypto.createHmac("sha512", secret).update(msg, "utf8").digest("hex")` and
`jparse` for `JSON.parse`; both are Node library functions, so the development
is parametric in them.  `body.data` on a `null` body throws a `TypeError`,
modelled as `.error ()`; the empty string is the falsy value of the
`!signatureHeader || !secret` guard. -/

structure Env where
  nodeEnv : String
  cassoSecret : String

def verifyCassoSignature (hmacHex : String → String → String)
    (jparse : String → Option Json) (env : Env)
    (rawBody sigHeader secret : String) : Except Unit Bool :=
  if env.nodeEnv = "development" then .ok true
  else if sigHeader = "" ∨ secret = "" then .ok false
  else
    match parseSigHeader sigHeader with
    | none => .ok false
    | some (t, v1) =>
      match jparse rawBody with
      | none => .ok false
      | some body =>
        match body with
        | .null => .error ()
        | _ =>
          let jsonSorted := stringify (sortObjDataByKey (dataObjOf body))
          let messageToSign := t ++ "." ++ jsonSorted
          .ok (hmacHex secret messageToSign == v1)

example : parseSigHeader "t=123,v1=9aff" = some ("123", "9aff") := by decide
example : parseSigHeader "xt=1,v1=ab!" = some ("1", "ab") := by decide
example : parseSigHeader "t=1, v1=ab" = none := by decide
example : parseSigHeader "v1=ab,t=1" = none := by decide
example : parseSigHeader "t=1,v1=AB" = none := by decide
example : parseSigHeader "t=1,v1=aB" = some ("1", "a") := by decide
example : parseSigHeader "" = none := by decide

/-! ### Description parsing

Two variants exist in the repository:
* server.js line 182: `desc.match(/MEOSTORE-?(\d+)/i)` — the prefix is
  mandatory, optionally followed by a single hyphen;
* the axios revision (unnamed part 001, line 68):
  `desc.match(/(?:MEOSTORE[-\s]?)*(\d+)/i)` — zero or more case-insensitive
  `MEOSTORE` units, each optionally followed by a hyphen or whitespace, then a
  captured digit run.

Both are embedded with JavaScript leftmost-match, greedy-with-backtracking
semantics.  The `i` flag performs ASCII case folding on letters. -/

def asciiLower (c : Char) : Char :=
  if 65 ≤ c.toNat ∧ c.toNat ≤ 90 then Char.ofNat (c.toNat + 32) else c

def startsWithCI : List Char → List Char → Bool
  | [], _ => true
  | _ :: _, [] => false
  | p :: ps, c :: cs => asciiLower c == p && startsWithCI ps cs

def meoChars : List Char := ['m', 'e', 'o', 's', 't', 'o', 'r', 'e']

/-- `\d+` anchored at the head of the input: the maximal digit run, if any. -/
def digitsRun (cs : List Char) : Option (List Char) :=
  let r := cs.takeWhile Char.isDigit
  if r.isEmpty then none else some r

/-- The ASCII members of the JavaScript `\s` character class. -/
def sepCh (c : Char) : Bool :=
  c = '-' || c = ' ' || c = '\t' || c = '\n' || c = '\r' || c = '\x0b' || c = '\x0c'

/-- One match attempt of `(?:MEOSTORE[-\s]?)*(\d+)` at the head of the input.
The greedy star prefers one more `MEOSTORE[-\s]?` unit before exiting, and
inside a unit the optional separator prefers to be consumed; on failure the
alternatives are retried in that order.  Each recursive call drops at least 8
characters, so fuel equal to the input length can never run out. -/
def tryFromF : Nat → List Char → Option (List Char)
  | 0, _ => none
  | fuel + 1, cs =>
    ((if startsWithCI meoChars cs then
        match cs.drop 8 with
        | [] => none
        | c :: r9 =>
          if sepCh c then (tryFromF fuel r9).orElse fun _ => tryFromF fuel (c :: r9)
          else tryFromF fuel (c :: r9)
      else none)).orElse fun _ => digitsRun cs

/-- Leftmost search for `(?:MEOSTORE[-\s]?)*(\d+)`, returning the capture. -/
def searchCode : List Char → Option (List Char)
  | [] => none
  | c :: cs => (tryFromF (cs.length + 1) (c :: cs)).orElse fun _ => searchCode cs

def digitsToNat (ds : List Char) : Nat :=
  ds.foldl (fun a c => a * 10 + (c.toNat - 48)) 0

/-- The permissive description parser (unnamed part 001 line 68): integer value
of the captured digit run of `/(?:MEOSTORE[-\s]?)*(\d+)/i`. -/
def extractOrderCode (desc : String) : Option Nat :=
  (searchCode desc.toList).map digitsToNat

/-- One match attempt of `MEOSTORE-?(\d+)` (case-insensitive) at the head. -/
def strictAt (cs : List Char) : Option (List Char) :=
  if startsWithCI meoChars cs then
    match cs.drop 8 with
    | [] => none
    | c :: r9 =>
      if c = '-' then (digitsRun r9).orElse fun _ => digitsRun (c :: r9)
      else digitsRun (c :: r9)
  else none

/-- Leftmost search for `MEOSTORE-?(\d+)` (server.js line 182). -/
def searchStrict : List Char → Option (List Char)
  | [] => none
  | c :: cs => (strictAt (c :: cs)).orElse fun _ => searchStrict cs

example : extractOrderCode "MEOSTORE-4889" = some 4889 := by decide
example : extractOrderCode "MEOSTORE4889" = some 4889 := by decide
example : extractOrderCode "MEOSTORE 4889" = some 4889 := by decide
example : extractOrderCode "4889" = some 4889 := by decide
example : extractOrderCode "no digits here" = none := by decide
example : extractOrderCode "Chuyen tien MEOSTORE-1" = some 1 := by decide
example : searchStrict "Chuyen tien MEOSTORE-1".toList = some ['1'] := by decide
example : searchStrict "MEOSTORE 4889".toList = none := by decide
example : searchStrict "4889".toList = none := by decide
example : searchStrict "meostore12".toList = some ['1', '2'] := by decide

/-! ### JavaScript coercions used by the reconciliation write -/

/-- JavaScript `String.prototype.trim`: strip leading and trailing whitespace
(ASCII subset of the Unicode class). -/
def jsTrim (s : String) : String :=
  (((s.toList.dropWhile Char.isWhitespace).reverse.dropWhile
    Char.isWhitespace).reverse).asString

mutual

/-- JavaScript `String(v)` for a non-`null`, non-`undefined` value. -/
def jsValString : Json → String
  | .null => "null"
  | .bool true => "true"
  | .bool false => "false"
  | .num n => toString n
  | .str s => s
  | .arr xs => jsListString xs
  | .obj _ => "[object Object]"

/-- `Array.prototype.toString`: elements joined by `,`, `null` rendered empty. -/
def jsListString : JsonList → String
  | .nil => ""
  | .cons x .nil => (match x with | .null => "" | _ => jsValString x)
  | .cons x (.cons y tl) =>
    (match x with | .null => "" | _ => jsValString x) ++ "," ++
      jsListString (.cons y tl)

end

/-! #### `Number(...)` on strings

JavaScript `Number` accepts a trimmed decimal literal (optional sign, optional
fraction, optional exponent), `Infinity`, or an unsigned `0x`/`0o`/`0b`
radix literal; anything else is `NaN`.  The model's number carrier is `Int`,
so `strToNumOpt` returns `some` exactly for numeric strings with an integer
value; `NaN` strings, and the values outside the carrier (`Infinity` and
finite non-integers such as `"5.5"`), are `none` — the callers below fold
`none` to `0`, which for the out-of-carrier values is a declared modelling
boundary (as is the double rounding of very large exact integers, which the
model keeps exact). -/

def hexDigitVal (c : Char) : Option Nat :=
  if c.isDigit then some (c.toNat - 48)
  else if 'a' ≤ c ∧ c ≤ 'f' then some (c.toNat - 87)
  else if 'A' ≤ c ∧ c ≤ 'F' then some (c.toNat - 55)
  else none

def octDigitVal (c : Char) : Option Nat :=
  if '0' ≤ c ∧ c ≤ '7' then some (c.toNat - 48) else none

def binDigitVal (c : Char) : Option Nat :=
  if c = '0' then some 0 else if c = '1' then some 1 else none

/-- An unsigned radix literal: all digits valid and at least one of them. -/
def parseRadixAll (radix : Nat) (digVal : Char → Option Nat)
    (ds : List Char) : Option Int :=
  match ds with
  | [] => none
  | _ =>
    (ds.foldl (fun acc c =>
      match acc, digVal c with
      | some a, some d => some (a * radix + d)
      | _, _ => none) (some 0)).map Int.ofNat

/-- The optional exponent part `e[+-]?digits` (or nothing) of a decimal
literal; `none` is `NaN`. -/
def parseExp : List Char → Option Int
  | [] => some 0
  | c :: rest =>
    if c = 'e' ∨ c = 'E' then
      match rest with
      | '+' :: ds =>
        if ds ≠ [] ∧ ds.all Char.isDigit then some (digitsToNat ds : Int) else none
      | '-' :: ds =>
        if ds ≠ [] ∧ ds.all Char.isDigit then some (-(digitsToNat ds : Int)) else none
      | ds =>
        if ds ≠ [] ∧ ds.all Char.isDigit then some (digitsToNat ds : Int) else none
    else none

/-- An unsigned decimal literal `digits[.digits?][exp]` or `.digits[exp]`,
as the pair (mantissa digits, fraction length) and the exponent. -/
def parseDecCore (cs : List Char) : Option (Nat × Nat × Int) :=
  let intDs := cs.takeWhile Char.isDigit
  match cs.dropWhile Char.isDigit with
  | '.' :: rest2 =>
    let fracDs := rest2.takeWhile Char.isDigit
    if intDs.isEmpty ∧ fracDs.isEmpty then none
    else
      (parseExp (rest2.dropWhile Char.isDigit)).map fun e =>
        (digitsToNat (intDs ++ fracDs), fracDs.length, e)
  | rest1 =>
    if intDs.isEmpty then none
    else (parseExp rest1).map fun e => (digitsToNat intDs, 0, e)

/-- The value `mantissa · 10 ^ (exp − fracLen)` when it is an integer;
non-integer values are outside the `Int` carrier. -/
def decValue (m fracLen : Nat) (e : Int) : Option Int :=
  let scale := e - fracLen
  if 0 ≤ scale then some (m * 10 ^ scale.toNat)
  else
    let d := 10 ^ (-scale).toNat
    if m % d = 0 then some (m / d : Nat) else none

/-- An unsigned decimal literal's integer value; `Infinity` is outside the
carrier. -/
def parseDec (cs : List Char) : Option Int :=
  if cs = "Infinity".toList then none
  else (parseDecCore cs).bind fun p => decValue p.1 p.2.1 p.2.2

/-- A decimal literal with an optional sign (radix literals take no sign). -/
def signedDec : List Char → Option Int
  | '-' :: rest => (parseDec rest).map Neg.neg
  | '+' :: rest => parseDec rest
  | cs => parseDec cs

/-- `Number(s)` for a string, when its value is an integer (see the section
comment for the carrier boundary). -/
def strToNumOpt (s : String) : Option Int :=
  match (jsTrim s).toList with
  | [] => some 0
  | '0' :: c :: rest =>
    if c = 'x' ∨ c = 'X' then parseRadixAll 16 hexDigitVal rest
    else if c = 'o' ∨ c = 'O' then parseRadixAll 8 octDigitVal rest
    else if c = 'b' ∨ c = 'B' then parseRadixAll 2 binDigitVal rest
    else signedDec ('0' :: c :: rest)
  | cs => signedDec cs

/-- `Number(tx.amount) || 0` (server.js line 189): `undefined`, `NaN` and `0`
all collapse to `0`.  Arrays and objects coerce through their string
rendering (`Number([x]) = Number(String([x]))`, `String({}) = "[object
Object]"` is `NaN`). -/
def jsToNumberOr0 (v : Option Json) : Int :=
  match v with
  | none => 0
  | some .null => 0
  | some (.bool b) => if b then 1 else 0
  | some (.num n) => n
  | some (.str s) => (strToNumOpt s).getD 0
  | some (.arr l) => (strToNumOpt (jsListString l)).getD 0
  | some (.obj _) => 0

example : jsToNumberOr0 (some (.str "1e3")) = 1000 := by decide
example : jsToNumberOr0 (some (.str "0x10")) = 16 := by decide
example : jsToNumberOr0 (some (.str "5.")) = 5 := by decide
example : jsToNumberOr0 (some (.str "100e-2")) = 1 := by decide
example : jsToNumberOr0 (some (.arr (.cons (.arr (.cons (.num 5) .nil)) .nil))) = 5 := by decide
example : jsToNumberOr0 (some (.str "abc")) = 0 := by decide
example : jsToNumberOr0 (some (.str "-0x10")) = 0 := by decide
example : jsToNumberOr0 (some (.arr (.cons (.num 1) (.cons (.num 2) .nil)))) = 0 := by decide

/-- `String(tx.id ?? "")` (server.js line 190). -/
def jsIdString (v : Option Json) : String :=
  match v with
  | none => ""
  | some .null => ""
  | some w => jsValString w

/-! ### The split/trim verifier of the axios revision (unnamed part 002,
lines 35–55)

That revision parses the header with
`signatureHeader.split(",").map(seg => { const [k, v] = seg.split("=");
return [k.trim(), v.trim()]; })` and `Object.fromEntries` — no filter and no
optional chaining, so a comma-segment without `=` leaves `v` `undefined` and
`v.trim()` throws a TypeError.  The digest is HMAC-SHA256 over
`t + "." + rawBody` directly. -/

/-- JavaScript `String.prototype.split` with a one-character separator. -/
def splitListOn (sep : Char) : List Char → List (List Char)
  | [] => [[]]
  | c :: cs =>
    if c = sep then [] :: splitListOn sep cs
    else
      match splitListOn sep cs with
      | [] => [[c]]
      | s :: ss => (c :: s) :: ss

/-- The `.map(seg => ...)` over the comma-segments: each segment becomes the
`[k.trim(), v.trim()]` pair, and a segment without `=` throws. -/
def buildParts : List (List Char) → Except Unit (List (String × String))
  | [] => .ok []
  | seg :: rest =>
    match (splitListOn '=' seg)[1]? with
    | none => .error ()
    | some v =>
      match buildParts rest with
      | .error e => .error e
      | .ok ps =>
        .ok ((jsTrim ((splitListOn '=' seg).headD []).asString,
              jsTrim v.asString) :: ps)

/-- `Object.fromEntries` membership: entries are processed in order and a
later duplicate key overwrites an earlier one. -/
def lookupLast (ps : List (String × String)) (k : String) : Option String :=
  ps.foldl (fun acc p => if p.1 = k then some p.2 else acc) none

/-- Falsiness of `parts.t` / `parts.v1`: absent or the empty string. -/
def jsStrOptFalsy : Option String → Bool
  | none => true
  | some s => s == ""

/-- `verifyCassoSignature` of the axios revision (unnamed part 002, lines
35–55); `hmacHex256` is the HMAC-SHA256 lowercase-hex oracle. -/
def verifyCassoSignatureSplit (hmacHex256 : String → String → String)
    (env : Env) (rawBody sigHeader secret : String) : Except Unit Bool :=
  if env.nodeEnv = "development" then .ok true
  else if sigHeader = "" ∨ secret = "" then .ok false
  else
    match buildParts (splitListOn ',' sigHeader.toList) with
    | .error e => .error e
    | .ok ps =>
      if jsStrOptFalsy (lookupLast ps "t") || jsStrOptFalsy (lookupLast ps "v1") then
        .ok false
      else
        let t := (lookupLast ps "t").getD ""
        let signedPayload := t ++ "." ++ rawBody
        .ok (hmacHex256 secret signedPayload == (lookupLast ps "v1").getD "")

example : verifyCassoSignatureSplit (fun _ _ => "x")
    ⟨"production", "s"⟩ "raw" "t=1,v1" "s" = .error () := rfl
example : verifyCassoSignatureSplit (fun _ _ => "x")
    ⟨"production", "s"⟩ "raw" "t=1,v1=x" "s" = .ok true := rfl
example : verifyCassoSignatureSplit (fun _ _ => "x")
    ⟨"production", "s"⟩ "raw" "t=1, v1=x" "s" = .ok true := rfl
example : verifyCassoSignatureSplit (fun _ _ => "x")
    ⟨"production", "s"⟩ "raw" "t=1,v1=y" "s" = .ok false := rfl
example : verifyCassoSignatureSplit (fun _ _ => "x")
    ⟨"production", "s"⟩ "raw" "a=b" "s" = .ok false := rfl
example : verifyCassoSignatureSplit (fun _ _ => "x")
    ⟨"production", "s"⟩ "raw" "t=,v1=x" "s" = .ok false := rfl
example : verifyCassoSignatureSplit (fun _ _ => "x")
    ⟨"production", "s"⟩ "raw" "garbage" "s" = .error () := rfl
example : verifyCassoSignatureSplit (fun _ _ => "x")
    ⟨"development", ""⟩ "raw" "anything" "" = .ok true := rfl
example : verifyCassoSignatureSplit (fun _ _ => "x")
    ⟨"production", "s"⟩ "raw" "t=2=9,v1=x" "s" = .ok true := rfl

/-! ### The `/casso-webhook` handler (server.js lines 151–226) -/

/-- The only response body the webhook route ever produces is
`res.json({ success: true })`, i.e. HTTP 200 with `{ success: true }`. -/
structure Resp where
  status : Nat
  successBody : Bool

def ackResp : Resp := ⟨200, true⟩

structure Emit where
  orderCode : String
  txId : String
  amount : Int
  desc : String

structure HandlerResult where
  resp : Resp
  ledger : List (List String)
  emits : List Emit

/-- `body.error !== 0 || !body.data` (server.js line 176), returning the
transaction object when the event is a success event.  `body.error` on a
`null` body throws. -/
def txOf (body : Json) : Except Unit (Option Json) :=
  match body with
  | .null => .error ()
  | _ =>
    match jsMember body "error" with
    | some (.num 0) =>
      match jsMember body "data" with
      | none => .ok none
      | some dv => if jsFalsy dv then .ok none else .ok (some dv)
    | _ => .ok none

/-- `const desc = tx.description || ""` followed by `desc.match(...)`: a truthy
non-string `description` makes `desc.match` throw. -/
def descOf (dv : Json) : Except Unit String :=
  match jsMember dv "description" with
  | none => .ok ""
  | some (.str s) => .ok s
  | some v => if jsFalsy v then .ok "" else .error ()

/-- The order code (as the captured digit string) the handler would look up for
an event body, `.ok none` when some guard exits early, `.error` when the
route body throws. -/
def eventCodeResult (body : Json) : Except Unit (Option String) :=
  match txOf body with
  | .error e => .error e
  | .ok none => .ok none
  | .ok (some dv) =>
    match descOf dv with
    | .error e => .error e
    | .ok desc => .ok ((searchStrict desc.toList).map List.asString)

/-- `String(r[0]).trim()`: `r[0]` of an empty row is `undefined`. -/
def cellStr (r : List String) : String :=
  jsTrim (match r with | [] => "undefined" | c :: _ => c)

/-- The `values.update` on range `K…:M…` (server.js lines 201–206): columns
K, L, M are cells 10, 11, 12 of the row. -/
def markPaidRow (r : List String) (amount : Int) (txId : String) : List String :=
  let r' := r ++ List.replicate (13 - r.length) ""
  ((r'.set 10 "Đã thanh toán").set 11 (toString amount)).set 12 txId

/-- The `/casso-webhook` route (server.js lines 151–226).  `body` is the
express-parsed request body and `rawBody` the raw byte string; the route-level
`try/catch` turns every thrown error into the same success acknowledgment. -/
def cassoWebhook (hmacHex : String → String → String)
    (jparse : String → Option Json) (env : Env)
    (ledger : List (List String)) (rawBody : String) (body : Json)
    (sigHeader : String) : HandlerResult :=
  match verifyCassoSignature hmacHex jparse env rawBody sigHeader env.cassoSecret with
  | .error _ => ⟨ackResp, ledger, []⟩
  | .ok ok =>
    if !ok && env.nodeEnv ≠ "development" then ⟨ackResp, ledger, []⟩
    else
      match txOf body with
      | .error _ => ⟨ackResp, ledger, []⟩
      | .ok none => ⟨ackResp, ledger, []⟩
      | .ok (some dv) =>
        match descOf dv with
        | .error _ => ⟨ackResp, ledger, []⟩
        | .ok desc =>
          match searchStrict desc.toList with
          | none => ⟨ackResp, ledger, []⟩
          | some ds =>
            let orderCode := ds.asString
            let amount := jsToNumberOr0 (jsMember dv "amount")
            let txId := jsIdString (jsMember dv "id")
            match ledger.findIdx? fun r => cellStr r == orderCode with
            | some i =>
              ⟨ackResp,
               ledger.set i (markPaidRow (ledger.getD i []) amount txId),
               [⟨"MEOSTORE-" ++ orderCode, txId, amount, desc⟩]⟩
            | none => ⟨ackResp, ledger, []⟩

/-! ### The `/create-order` code allocation (server.js lines 92–148) -/

/-- `parseInt(s, 10)`: skip leading whitespace, optional sign, then the maximal
leading digit run; `NaN` (no digits) is `none`. -/
def parseIntJS (s : String) : Option Int :=
  match s.toList.dropWhile Char.isWhitespace with
  | '-' :: rest =>
    let ds := rest.takeWhile Char.isDigit
    if ds.isEmpty then none else some (-(digitsToNat ds : Int))
  | '+' :: rest =>
    let ds := rest.takeWhile Char.isDigit
    if ds.isEmpty then none else some (digitsToNat ds : Int)
  | rest =>
    let ds := rest.takeWhile Char.isDigit
    if ds.isEmpty then none else some (digitsToNat ds : Int)

/-- The `A2:A` read of existing codes, `parseInt`-ed and with `NaN` filtered
out (server.js lines 97–103). -/
def existingCodes (ledger : List (List String)) : List Int :=
  ledger.filterMap fun r => parseIntJS (match r with | [] => "undefined" | c :: _ => c)

/-- `nextCode = (existingCodes.length ? Math.max(...existingCodes) : 0) + 1`
(server.js line 104).  This read is not serialized against concurrent
creations in any way. -/
def nextCode (ledger : List (List String)) : Int :=
  (match existingCodes ledger with
   | [] => 0
   | e :: es => es.foldl max e) + 1

/-- The row `/create-order` writes (server.js lines 110–114), as it reads back
from the sheet. -/
def newOrderRow (code : Int) (uid amount displayTs isoTs : String) : List String :=
  [toString code, "GAME", uid, "", "", "1", displayTs, amount,
   "Chưa giao", "", "Chờ thanh toán", isoTs]

/-- `insertDimension` at row 2 followed by `values.update` on `A2` prepends
the new row to the data range (server.js lines 121–135). -/
def insertOrderRow (ledger : List (List String)) (row : List String) :
    List (List String) :=
  row :: ledger

/-- Two concurrent `/create-order` requests, interleaved as
read₁ · read₂ · insert₁ · insert₂: both `nextCode` reads happen against the
same ledger state before either insert lands.  Returns both allocated codes
and the final ledger. -/
def raceCreate (l0 : List (List String)) (uid1 amt1 uid2 amt2 dts its : String) :
    Int × Int × List (List String) :=
  let c1 := nextCode l0
  let c2 := nextCode l0
  let l1 := insertOrderRow l0 (newOrderRow c1 uid1 amt1 dts its)
  let l2 := insertOrderRow l1 (newOrderRow c2 uid2 amt2 dts its)
  (c1, c2, l2)

/-! ### Basic facts about the verifier -/

lemma parseSigHeader_empty : parseSigHeader "" = none := rfl

lemma body_obj_of_jsMember {body : Json} {k : String} {v : Json}
    (h : jsMember body k = some v) : ∃ fs, body = .obj fs := by
  cases body
  case obj fs => exact ⟨fs, rfl⟩
  all_goals simp [jsMember] at h

/-- Counterexample to C1: the claim quantifies over every secret, but with the
empty secret the `!secret` guard (server.js line 57) returns `false` outright
— here at a header whose `v1` equals the digest that the (oracle-modelled)
HMAC produces for the signing string under that empty secret, so the claimed
"true iff digest matches" biconditional fails at `secret = ""`. -/
theorem verify_empty_secret_counterexample :
    (fun _ _ => "ab" : String → String → String) ""
        ("1" ++ "." ++ stringify (sortObjDataByKey (Json.obj .nil))) = "ab" ∧
    verifyCassoSignature (fun _ _ => "ab")
      (fun _ => some (Json.obj (.cons "data" (.obj .nil) .nil)))
      ⟨"production", "s"⟩ "raw" "t=1,v1=ab" "" = .ok false :=
  ⟨rfl, rfl⟩

/-- Claim C1 (amended): for a payload that parses, a header from which `t` and
`v1` are extracted (development bypass off), and every *non-empty* secret, the
verifier accepts exactly when the hex HMAC (of which `hmacHex` is the
HMAC-SHA512 lowercase-hex oracle) of `t ++ "." ++ J` under the secret equals
`v1`, where `J` is the compact serialization of the payload's `data` object
with every nested mapping's keys sorted ascending (array order preserved);
with the empty secret the verifier returns `false` unconditionally, digest
match or not. -/
theorem verify_accepts_iff_hmac_of_sorted_data
    (hmacHex : String → String → String) (jparse : String → Option Json)
    (env : Env) (rawBody sigHeader t v1 : String) (body d : Json)
    (hdev : env.nodeEnv ≠ "development")
    (hhdr : parseSigHeader sigHeader = some (t, v1))
    (hjp : jparse rawBody = some body)
    (hd : jsMember body "data" = some d) (hdt : jsFalsy d = false) :
    (∀ secret, secret ≠ "" →
      (verifyCassoSignature hmacHex jparse env rawBody sigHeader secret = .ok true ↔
        hmacHex secret (t ++ "." ++ stringify (sortObjDataByKey d)) = v1)) ∧
    verifyCassoSignature hmacHex jparse env rawBody sigHeader "" = .ok false := by
  have hhne : sigHeader ≠ "" := by
    intro he
    rw [he, parseSigHeader_empty] at hhdr
    exact Option.noConfusion hhdr
  obtain ⟨fs, rfl⟩ := body_obj_of_jsMember hd
  have hdata : dataObjOf (.obj fs) = d := by
    simp [dataObjOf, hd, hdt]
  constructor
  · intro secret hsec
    unfold verifyCassoSignature
    rw [if_neg hdev, if_neg (by simp [hhne, hsec]), hhdr, hjp]
    simp [hdata]
  · unfold verifyCassoSignature
    rw [if_neg hdev, if_pos (Or.inr rfl)]

/-- Witness for the amended C1: a concrete accepting run with a non-empty
secret and the unconditional rejection at the empty secret, both obtained by
applying the claim theorem at a concrete input. -/
theorem verify_accepts_iff_hmac_of_sorted_data_witness :
    verifyCassoSignature (fun _ _ => "ab")
      (fun _ => some (Json.obj (.cons "data" (.obj .nil) .nil)))
      ⟨"production", "s"⟩ "raw" "t=1,v1=ab" "s" = .ok true ∧
    verifyCassoSignature (fun _ _ => "ab")
      (fun _ => some (Json.obj (.cons "data" (.obj .nil) .nil)))
      ⟨"production", "s"⟩ "raw" "t=1,v1=ab" "" = .ok false := by
  have h := verify_accepts_iff_hmac_of_sorted_data (fun _ _ => "ab")
    (fun _ => some (Json.obj (.cons "data" (.obj .nil) .nil)))
    ⟨"production", "s"⟩ "raw" "t=1,v1=ab" "1" "ab"
    (Json.obj (.cons "data" (.obj .nil) .nil)) (.obj .nil)
    (by decide) rfl rfl rfl rfl
  exact ⟨(h.1 "s" (by decide)).mpr rfl, h.2⟩

lemma splitListOn_of_not_mem {sep : Char} : ∀ {l : List Char},
    sep ∉ l → splitListOn sep l = [l] := by
  intro l
  induction l with
  | nil => intro _; rfl
  | cons c cs ih =>
    intro h
    unfold splitListOn
    rw [if_neg (show ¬c = sep from fun hc => h (by subst hc; exact List.mem_cons_self c cs))]
    rw [ih fun hm => h (List.mem_cons_of_mem _ hm)]

lemma buildParts_error_of_eqless : ∀ (segs : List (List Char)),
    (∃ seg ∈ segs, '=' ∉ seg) → buildParts segs = .error () := by
  intro segs
  induction segs with
  | nil => rintro ⟨seg, hm, _⟩; cases hm
  | cons s rest ih =>
    rintro ⟨seg, hm, hno⟩
    unfold buildParts
    by_cases hs : '=' ∈ s
    · have hseg : seg ∈ rest := by
        rcases List.mem_cons.mp hm with rfl | h'
        · exact absurd hs hno
        · exact h'
      cases hv : (splitListOn '=' s)[1]? with
      | none => rfl
      | some v => rw [ih ⟨seg, hseg, hno⟩]
    · rw [splitListOn_of_not_mem hs]
      rfl

/-- Counterexample to C5: in the cited split/trim revision (unnamed part 002),
a malformed header with a `=`-less comma-segment — here `"t=1,v1"` — makes
`v.trim()` throw a TypeError instead of returning `false`, refuting "none of
these raise" for malformed headers. -/
theorem split_verifier_throws_on_eqless_segment :
    verifyCassoSignatureSplit (fun _ _ => "x")
      ⟨"production", "s"⟩ "raw" "t=1,v1" "s" = .error () := rfl

/-- Claim C5 (amended): with the development bypass off, the canonical
verifier (server.js) returns `false` — and never throws — when the payload
does not parse as JSON, when the header is absent or no `t`/`v1` can be
extracted from it, and on a digest mismatch.  In the split/trim revision
(unnamed part 002), a header whose comma-segments all contain `=` but whose
`t` or `v1` entry is missing or empty returns `false`, while a header with a
`=`-less segment throws a TypeError (absorbed by the route's catch). -/
theorem verify_failure_conditions_both_variants
    (hmacHex hmacHex256 : String → String → String)
    (jparse : String → Option Json)
    (env : Env) (rawBody sigHeader secret : String)
    (hdev : env.nodeEnv ≠ "development") :
    (jparse rawBody = none →
      verifyCassoSignature hmacHex jparse env rawBody sigHeader secret = .ok false) ∧
    (parseSigHeader sigHeader = none →
      verifyCassoSignature hmacHex jparse env rawBody sigHeader secret = .ok false) ∧
    (∀ t v1 body, parseSigHeader sigHeader = some (t, v1) →
      jparse rawBody = some body → body ≠ .null →
      hmacHex secret (t ++ "." ++ stringify (sortObjDataByKey (dataObjOf body))) ≠ v1 →
      verifyCassoSignature hmacHex jparse env rawBody sigHeader secret = .ok false) ∧
    (sigHeader ≠ "" → secret ≠ "" →
      (∃ seg ∈ splitListOn ',' sigHeader.toList, '=' ∉ seg) →
      verifyCassoSignatureSplit hmacHex256 env rawBody sigHeader secret = .error ()) ∧
    (∀ ps, buildParts (splitListOn ',' sigHeader.toList) = .ok ps →
      (jsStrOptFalsy (lookupLast ps "t") || jsStrOptFalsy (lookupLast ps "v1")) = true →
      verifyCassoSignatureSplit hmacHex256 env rawBody sigHeader secret = .ok false) := by
  refine ⟨fun hjp => ?_, fun hp => ?_, fun t v1 body hp hjp hnn hne => ?_,
    fun hh hs hex => ?_, fun ps hbp hfal => ?_⟩
  · unfold verifyCassoSignature
    rw [if_neg hdev]
    by_cases hz : sigHeader = "" ∨ secret = ""
    · rw [if_pos hz]
    · rw [if_neg hz]
      cases hph : parseSigHeader sigHeader with
      | none => rfl
      | some p => cases p with
        | mk t v1 => rw [hjp]
  · unfold verifyCassoSignature
    rw [if_neg hdev]
    by_cases hz : sigHeader = "" ∨ secret = ""
    · rw [if_pos hz]
    · rw [if_neg hz, hp]
  · have hhne : sigHeader ≠ "" := by
      intro he
      rw [he, parseSigHeader_empty] at hp
      exact Option.noConfusion hp
    unfold verifyCassoSignature
    rw [if_neg hdev]
    by_cases hz : sigHeader = "" ∨ secret = ""
    · rw [if_pos hz]
    · rw [if_neg hz, hp, hjp]
      cases body
      · exact absurd rfl hnn
      all_goals simp_all [dataObjOf]
  · unfold verifyCassoSignatureSplit
    rw [if_neg hdev, if_neg (by simp [hh, hs]), buildParts_error_of_eqless _ hex]
  · unfold verifyCassoSignatureSplit
    rw [if_neg hdev]
    by_cases hz : sigHeader = "" ∨ secret = ""
    · rw [if_pos hz]
    · rw [if_neg hz, hbp]
      dsimp only
      rw [if_pos hfal]

/-- Witness for the amended C5: the five conditions at concrete inputs —
unparsable payload, garbage header and digest mismatch for the canonical
verifier; a thrown TypeError on `"t=1,v1"` and a quiet `false` on the
`t`-less `"x=1"` for the split/trim revision — obtained from the claim
theorem. -/
theorem verify_failure_conditions_both_variants_witness :
    verifyCassoSignature (fun _ _ => "ff") (fun _ => none)
      ⟨"production", "s"⟩ "not json" "t=1,v1=ab" "s" = .ok false ∧
    verifyCassoSignature (fun _ _ => "ff") (fun _ => some (.obj .nil))
      ⟨"production", "s"⟩ "raw" "no pairs here" "s" = .ok false ∧
    verifyCassoSignature (fun _ _ => "ff") (fun _ => some (.obj .nil))
      ⟨"production", "s"⟩ "raw" "t=1,v1=ab" "s" = .ok false ∧
    verifyCassoSignatureSplit (fun _ _ => "ff")
      ⟨"production", "s"⟩ "raw" "t=1,v1" "s" = .error () ∧
    verifyCassoSignatureSplit (fun _ _ => "ff")
      ⟨"production", "s"⟩ "raw" "x=1" "s" = .ok false :=
  ⟨(verify_failure_conditions_both_variants (fun _ _ => "ff") (fun _ _ => "ff")
      (fun _ => none) ⟨"production", "s"⟩ "not json" "t=1,v1=ab" "s"
      (by decide)).1 rfl,
   (verify_failure_conditions_both_variants (fun _ _ => "ff") (fun _ _ => "ff")
      (fun _ => some (.obj .nil)) ⟨"production", "s"⟩ "raw" "no pairs here" "s"
      (by decide)).2.1 rfl,
   (verify_failure_conditions_both_variants (fun _ _ => "ff") (fun _ _ => "ff")
      (fun _ => some (.obj .nil)) ⟨"production", "s"⟩ "raw" "t=1,v1=ab" "s"
      (by decide)).2.2.1 "1" "ab" (.obj .nil)
     rfl rfl (fun h => Json.noConfusion h) (by decide),
   (verify_failure_conditions_both_variants (fun _ _ => "ff") (fun _ _ => "ff")
      (fun _ => none) ⟨"production", "s"⟩ "raw" "t=1,v1" "s"
      (by decide)).2.2.2.1 (by decide) (by decide) (by decide),
   (verify_failure_conditions_both_variants (fun _ _ => "ff") (fun _ _ => "ff")
      (fun _ => none) ⟨"production", "s"⟩ "raw" "x=1" "s"
      (by decide)).2.2.2.2 [("x", "1")] rfl (by decide)⟩

/-- Counterexample to C6: setting the single configuration value
`NODE_ENV=development` — with every other input empty and no second
confirmation flag in existence — already makes the verifier return `true`
unconditionally, so a lone configuration value does enable the bypass. -/
theorem dev_bypass_single_flag_counterexample :
    verifyCassoSignature (fun _ _ => "") (fun _ => none)
      ⟨"development", ""⟩ "" "" "" = .ok true := rfl

/-- Claim C6 (amended): the verification-disabled mode is gated by the single
deployment-mode value `NODE_ENV = "development"` alone — that one value makes
the verifier return `true` unconditionally, and without it verification really
runs (an absent header is rejected); no second confirmation flag exists. -/
theorem dev_bypass_gated_by_single_flag
    (hmacHex : String → String → String) (jparse : String → Option Json)
    (env : Env) (rawBody sigHeader secret : String) :
    (env.nodeEnv = "development" →
      verifyCassoSignature hmacHex jparse env rawBody sigHeader secret = .ok true) ∧
    (env.nodeEnv ≠ "development" →
      verifyCassoSignature hmacHex jparse env rawBody "" secret = .ok false) := by
  constructor
  · intro h
    unfold verifyCassoSignature
    rw [if_pos h]
  · intro h
    unfold verifyCassoSignature
    rw [if_neg h, if_pos (Or.inl rfl)]

/-- Witness for the amended C6: both directions of the gate at concrete
inputs, obtained from the amended theorem. -/
theorem dev_bypass_gated_by_single_flag_witness :
    verifyCassoSignature (fun _ _ => "ff") (fun _ => none)
      ⟨"development", "s"⟩ "raw" "hdr" "s" = .ok true ∧
    verifyCassoSignature (fun _ _ => "ff") (fun _ => none)
      ⟨"production", "s"⟩ "raw" "" "s" = .ok false :=
  ⟨(dev_bypass_gated_by_single_flag (fun _ _ => "ff") (fun _ => none)
      ⟨"development", "s"⟩ "raw" "hdr" "s").1 rfl,
   (dev_bypass_gated_by_single_flag (fun _ _ => "ff") (fun _ => none)
      ⟨"production", "s"⟩ "raw" "hdr" "s").2 (by decide)⟩

/-! ### Always-acknowledge and frame claims about the webhook route -/

/-- Claim C4: on every path through the webhook route — invalid signature,
non-zero error sentinel or absent transaction data, no order code in the
description, unknown order, successful reconciliation, and a thrown error
absorbed by the route's `catch` — the response is the same success-shaped
acknowledgment, HTTP 200 with `{ success: true }`. -/
theorem webhook_always_acks_success (hc : String → String → String)
    (jp : String → Option Json) (env : Env) (ledger : List (List String))
    (raw : String) (body : Json) (hdr : String) :
    (cassoWebhook hc jp env ledger raw body hdr).resp = ackResp := by
  unfold cassoWebhook
  (repeat' split) <;> first | rfl | (dsimp only; split <;> rfl)

/-- Claim C8: a webhook event whose extracted order code matches no ledger row
(and any event that never reaches the lookup) leaves every ledger row
unchanged, emits nothing, and still acknowledges success. -/
theorem unknown_order_leaves_ledger_unchanged (hc : String → String → String)
    (jp : String → Option Json) (env : Env) (ledger : List (List String))
    (raw : String) (body : Json) (hdr : String)
    (h : ∀ c, eventCodeResult body = .ok (some c) →
      List.findIdx? (fun r => cellStr r == c) ledger = none) :
    (cassoWebhook hc jp env ledger raw body hdr).ledger = ledger ∧
    (cassoWebhook hc jp env ledger raw body hdr).emits = [] ∧
    (cassoWebhook hc jp env ledger raw body hdr).resp = ackResp := by
  unfold cassoWebhook
  cases hv : verifyCassoSignature hc jp env raw hdr env.cassoSecret with
  | error e => exact ⟨rfl, rfl, rfl⟩
  | ok ok =>
    dsimp only
    split
    · exact ⟨rfl, rfl, rfl⟩
    · cases htx : txOf body with
      | error e => exact ⟨rfl, rfl, rfl⟩
      | ok o =>
        cases o with
        | none => exact ⟨rfl, rfl, rfl⟩
        | some dv =>
          dsimp only
          cases hde : descOf dv with
          | error e => exact ⟨rfl, rfl, rfl⟩
          | ok desc =>
            dsimp only
            cases hse : searchStrict desc.toList with
            | none => exact ⟨rfl, rfl, rfl⟩
            | some ds =>
              dsimp only
              have hfind := h ds.asString (by simp [eventCodeResult, htx, hde]; exact hse)
              rw [hfind]
              exact ⟨rfl, rfl, rfl⟩

/-- Witness for C8: a valid event for order `7` delivered against an empty
ledger mutates nothing and acknowledges success, by the claim theorem. -/
theorem unknown_order_leaves_ledger_unchanged_witness :
    (cassoWebhook (fun _ _ => "ab")
        (fun _ => some (.obj (.cons "error" (.num 0) (.cons "data"
          (.obj (.cons "description" (.str "MEOSTORE-7") .nil)) .nil))))
        ⟨"production", "s"⟩ [] "raw"
        (.obj (.cons "error" (.num 0) (.cons "data"
          (.obj (.cons "description" (.str "MEOSTORE-7") .nil)) .nil)))
        "t=1,v1=ab").ledger = [] ∧
    (cassoWebhook (fun _ _ => "ab")
        (fun _ => some (.obj (.cons "error" (.num 0) (.cons "data"
          (.obj (.cons "description" (.str "MEOSTORE-7") .nil)) .nil))))
        ⟨"production", "s"⟩ [] "raw"
        (.obj (.cons "error" (.num 0) (.cons "data"
          (.obj (.cons "description" (.str "MEOSTORE-7") .nil)) .nil)))
        "t=1,v1=ab").emits = [] :=
  have h := unknown_order_leaves_ledger_unchanged (fun _ _ => "ab")
    (fun _ => some (.obj (.cons "error" (.num 0) (.cons "data"
      (.obj (.cons "description" (.str "MEOSTORE-7") .nil)) .nil))))
    ⟨"production", "s"⟩ [] "raw"
    (.obj (.cons "error" (.num 0) (.cons "data"
      (.obj (.cons "description" (.str "MEOSTORE-7") .nil)) .nil)))
    "t=1,v1=ab" (fun _ _ => rfl)
  ⟨h.1, h.2.1⟩

/-! ### Replay, race and write-shape facts -/

lemma toDigitsCore_eq_nil_imp : ∀ (f n : Nat) (l : List Char),
    Nat.toDigitsCore 10 f n l = [] → l = [] ∧ f = 0 := by
  intro f
  induction f with
  | zero => intro n l h; exact ⟨h, rfl⟩
  | succ f ih =>
    intro n l h
    simp only [Nat.toDigitsCore] at h
    by_cases hd : n / 10 = 0
    · rw [if_pos hd] at h
      exact absurd h (List.cons_ne_nil _ _)
    · rw [if_neg hd] at h
      have := ih (n / 10) (Nat.digitChar (n % 10) :: l) h
      exact absurd this.1 (List.cons_ne_nil _ _)

lemma natRepr_ne_empty (n : Nat) : Nat.repr n ≠ "" := by
  intro h
  have hd : Nat.toDigits 10 n = [] := by
    have := congrArg String.data h
    simpa [Nat.repr, List.asString] using this
  have := toDigitsCore_eq_nil_imp (n + 1) n [] hd
  omega

/-- `amount.toString()` — the decimal rendering of an integer — is never the
empty string. -/
lemma intToString_ne_empty (n : Int) : toString n ≠ "" := by
  show Int.repr n ≠ ""
  cases n with
  | ofNat m => exact natRepr_ne_empty m
  | negSucc m =>
    intro h
    have := congrArg String.data h
    simp only [Int.repr, String.data_append] at this
    simp at this

/-- The transaction object of the replay scenario. -/
def replayEventData : Json :=
  .obj (.cons "id" (.num 9) (.cons "amount" (.num 50000)
    (.cons "description" (.str "MEOSTORE-1") .nil)))

/-- The event of the replay scenario: a success event for order 1. -/
def replayEventBody : Json :=
  .obj (.cons "error" (.num 0) (.cons "data" replayEventData .nil))

/-- Ledger holding the single awaiting-payment order 1. -/
def replayLedger0 : List (List String) :=
  [["1", "GAME", "u1", "", "", "1", "ts", "50000", "Chưa giao", "",
    "Chờ thanh toán", "iso"]]

/-- First delivery of the event. -/
def replayFirst : HandlerResult :=
  cassoWebhook (fun _ _ => "ab") (fun _ => some replayEventBody)
    ⟨"production", "s"⟩ replayLedger0 "raw" replayEventBody "t=1,v1=ab"

/-- Redelivery of the identical event against the post-first-delivery ledger. -/
def replaySecond : HandlerResult :=
  cassoWebhook (fun _ _ => "ab") (fun _ => some replayEventBody)
    ⟨"production", "s"⟩ replayFirst.ledger "raw" replayEventBody "t=1,v1=ab"

/-- Claim C3 (evaluated at the failing input): the first delivery of a valid
webhook event transitions order 1 to Paid and emits one notification, but the
handler never consults `paymentStatus`, so the replay of the identical event
finds the row again, performs the K:M write a second time (same values, so the
ledger is unchanged) and emits a second `payment_success` notification instead
of the claimed no-write, no-duplicate-notification `Ignored(alreadyPaid)`. -/
theorem replay_emits_duplicate_notification :
    replayFirst.emits.length = 1 ∧
    (replayFirst.ledger.getD 0 []).getD 10 "" = "Đã thanh toán" ∧
    replaySecond.emits.length = 1 ∧
    replaySecond.ledger = replayFirst.ledger := by
  decide

/-- The race scenario of C9: two concurrent creations against the empty
ledger, interleaved read-read-insert-insert. -/
def raceResult : Int × Int × List (List String) :=
  raceCreate [] "u1" "50000" "u2" "60000" "ts" "iso"

/-- Claim C9 (evaluated at the failing input): with the empty ledger, both
interleaved `/create-order` executions read `max existing + 1` before either
insert lands, so both allocate code 1 and the final ledger carries two rows
with the same code — the unguarded read-max-then-write sequence has no
serialization point. -/
theorem race_allocates_duplicate_codes :
    raceResult.1 = 1 ∧ raceResult.2.1 = 1 ∧
    raceResult.2.2.map (fun r => r.getD 0 "") = ["1", "1"] := by
  decide

/-! ### The shape of the K:M reconciliation write (C7) -/

lemma markPaidRow_getD (r : List String) (a : Int) (t : String) :
    (markPaidRow r a t).getD 10 "" = "Đã thanh toán" ∧
    (markPaidRow r a t).getD 11 "" = toString a ∧
    (markPaidRow r a t).getD 12 "" = t := by
  have h13 : 13 ≤ (r ++ List.replicate (13 - r.length) "").length := by
    rw [List.length_append, List.length_replicate]
    omega
  unfold markPaidRow
  refine ⟨?_, ?_, ?_⟩
  · rw [List.getD_eq_getElem?_getD,
      List.getElem?_set_ne (by omega), List.getElem?_set_ne (by omega),
      List.getElem?_set_self (by omega)]
    rfl
  · rw [List.getD_eq_getElem?_getD,
      List.getElem?_set_ne (by omega),
      List.getElem?_set_self (by simp only [List.length_set]; omega)]
    rfl
  · rw [List.getD_eq_getElem?_getD,
      List.getElem?_set_self (by simp only [List.length_set]; omega)]
    rfl

/-- A success event for order 1 whose transaction carries a non-numeric
`amount` and no `id` field at all. -/
def missingIdEventBody : Json :=
  .obj (.cons "error" (.num 0) (.cons "data"
    (.obj (.cons "amount" (.str "abc")
      (.cons "description" (.str "MEOSTORE-1") .nil))) .nil))

/-- Delivery of the id-less event against the awaiting-payment ledger. -/
def missingIdResult : HandlerResult :=
  cassoWebhook (fun _ _ => "ab") (fun _ => some missingIdEventBody)
    ⟨"production", "s"⟩ replayLedger0 "raw" missingIdEventBody "t=1,v1=ab"

/-- Counterexample to C7: an event whose transaction id is absent reaches the
write step (here with a valid signature and a matching order), the order is
transitioned to Paid — yet the written `transactionRef` cell (column M) is the
empty string, because `String(tx.id ?? "")` renders an absent id as `""`.  The
`paidAmount` cell is `"0"` (non-empty), so it is the transactionRef half of
the claim that fails. -/
theorem paid_row_with_empty_transactionRef :
    (missingIdResult.ledger.getD 0 []).getD 10 "x" = "Đã thanh toán" ∧
    (missingIdResult.ledger.getD 0 []).getD 11 "x" = "0" ∧
    (missingIdResult.ledger.getD 0 []).getD 12 "x" = "" ∧
    missingIdResult.emits.length = 1 := by
  decide

/-- Claim C7 (amended): every reconciliation that reaches the write step marks
the matched row Paid with a `paidAmount` cell that is the decimal rendering of
`Number(tx.amount) || 0` — hence non-empty even for non-numeric amounts — and
a `transactionRef` cell that is exactly `String(tx.id ?? "")`; that rendering
is empty in particular when the transaction id is absent or `null` (the last
two conjuncts), and an id whose string rendering is empty (such as `""` or
`[]`) likewise leaves the cell empty. -/
theorem paid_write_cells_shape (hc : String → String → String)
    (jp : String → Option Json) (env : Env) (ledger : List (List String))
    (raw : String) (body dv : Json) (hdr desc : String) (ds : List Char) (i : Nat)
    (hv : verifyCassoSignature hc jp env raw hdr env.cassoSecret = .ok true)
    (htx : txOf body = .ok (some dv))
    (hde : descOf dv = .ok desc)
    (hse : searchStrict desc.toList = some ds)
    (hfi : List.findIdx? (fun r => cellStr r == ds.asString) ledger = some i) :
    ((cassoWebhook hc jp env ledger raw body hdr).ledger.getD i []).getD 10 ""
        = "Đã thanh toán" ∧
    ((cassoWebhook hc jp env ledger raw body hdr).ledger.getD i []).getD 11 ""
        = toString (jsToNumberOr0 (jsMember dv "amount")) ∧
    toString (jsToNumberOr0 (jsMember dv "amount")) ≠ "" ∧
    ((cassoWebhook hc jp env ledger raw body hdr).ledger.getD i []).getD 12 ""
        = jsIdString (jsMember dv "id") ∧
    jsIdString none = "" ∧
    jsIdString (some Json.null) = "" := by
  have hi : i < ledger.length := (List.findIdx?_eq_some_iff_findIdx_eq.mp hfi).1
  have hled : (cassoWebhook hc jp env ledger raw body hdr).ledger =
      ledger.set i (markPaidRow (ledger.getD i [])
        (jsToNumberOr0 (jsMember dv "amount")) (jsIdString (jsMember dv "id"))) := by
    unfold cassoWebhook
    rw [hv]
    dsimp only
    rw [if_neg (by simp)]
    rw [htx]
    dsimp only
    rw [hde]
    dsimp only
    rw [hse]
    dsimp only
    rw [hfi]
  rw [hled]
  have hget : (ledger.set i (markPaidRow (ledger.getD i [])
      (jsToNumberOr0 (jsMember dv "amount")) (jsIdString (jsMember dv "id")))).getD i []
      = markPaidRow (ledger.getD i [])
        (jsToNumberOr0 (jsMember dv "amount")) (jsIdString (jsMember dv "id")) := by
    simp [List.getD_eq_getElem?_getD, List.getElem?_set, hi]
  rw [hget]
  obtain ⟨h10, h11, h12⟩ := markPaidRow_getD (ledger.getD i [])
    (jsToNumberOr0 (jsMember dv "amount")) (jsIdString (jsMember dv "id"))
  exact ⟨h10, h11, intToString_ne_empty _, h12, rfl, rfl⟩

/-- Witness for the amended C7: the write for the replay-scenario event, with
its id present, yields `paidAmount = "50000"` and `transactionRef = "9"`. -/
theorem paid_write_cells_shape_witness :
    ((cassoWebhook (fun _ _ => "ab") (fun _ => some replayEventBody)
        ⟨"production", "s"⟩ replayLedger0 "raw" replayEventBody
        "t=1,v1=ab").ledger.getD 0 []).getD 11 ""
      = toString (jsToNumberOr0 (jsMember replayEventData "amount")) ∧
    ((cassoWebhook (fun _ _ => "ab") (fun _ => some replayEventBody)
        ⟨"production", "s"⟩ replayLedger0 "raw" replayEventBody
        "t=1,v1=ab").ledger.getD 0 []).getD 12 ""
      = jsIdString (jsMember replayEventData "id") :=
  have h := paid_write_cells_shape (fun _ _ => "ab") (fun _ => some replayEventBody)
    ⟨"production", "s"⟩ replayLedger0 "raw" replayEventBody replayEventData
    "t=1,v1=ab" "MEOSTORE-1" ['1'] 0 rfl rfl rfl rfl rfl
  ⟨h.2.1, h.2.2.2.1⟩

/-! ### C2: what the permissive description regex computes

The claim says the parser returns the integer value of the first digit run of
the description.  `firstDigitRunSpec` is that characterization written
directly from the claim's words; the theorem below proves the embedded regex
search equal to it. -/

/-- The first maximal run of consecutive decimal digits in a string, if any —
the claim's description of the parser, stated independently of the regex. -/
def firstDigitRun : List Char → Option (List Char)
  | [] => none
  | c :: cs =>
    if c.isDigit then some ((c :: cs).takeWhile Char.isDigit) else firstDigitRun cs

/-- Spec-side contract of the description parser: the integer value of the
first digit run, or nothing when the string has no digit. -/
def firstDigitRunSpec (s : String) : Option Nat :=
  (firstDigitRun s.toList).map digitsToNat

lemma asciiLower_of_isDigit (c : Char) (h : c.isDigit = true) : asciiLower c = c := by
  simp only [Char.isDigit, Bool.and_eq_true, decide_eq_true_eq] at h
  obtain ⟨ha, hb⟩ := h
  unfold asciiLower
  rw [if_neg]
  intro ⟨h1, h2⟩
  have hb' : c.val.toNat ≤ 57 := hb
  have h1' : 65 ≤ c.val.toNat := h1
  omega

lemma isDigit_false_of_asciiLower_eq {c p : Char} (hp : p.isDigit = false)
    (h : asciiLower c = p) : c.isDigit = false := by
  cases hd : c.isDigit with
  | true =>
    rw [asciiLower_of_isDigit c hd] at h
    subst h
    rw [hd] at hp
    exact hp
  | false => rfl

lemma firstDigitRun_cons_not_digit {c : Char} {cs : List Char}
    (h : c.isDigit = false) : firstDigitRun (c :: cs) = firstDigitRun cs := by
  simp [firstDigitRun, h]

lemma sep_not_digit {c : Char} (h : sepCh c = true) : c.isDigit = false := by
  simp only [sepCh, Bool.or_eq_true, decide_eq_true_eq] at h
  rcases h with ⟨⟨⟨⟨⟨h | h⟩ | h⟩ | h⟩ | h⟩ | h⟩ | h <;> subst h <;> decide

lemma startsWithCI_skip (ps : List Char) (hp : ∀ p ∈ ps, p.isDigit = false) :
    ∀ cs, startsWithCI ps cs = true →
      firstDigitRun cs = firstDigitRun (cs.drop ps.length) := by
  induction ps with
  | nil => intro cs _; rfl
  | cons p ps ih =>
    intro cs h
    cases cs with
    | nil => simp [startsWithCI] at h
    | cons c cs' =>
      simp only [startsWithCI, Bool.and_eq_true, beq_iff_eq] at h
      have hc : c.isDigit = false :=
        isDigit_false_of_asciiLower_eq (hp p (List.mem_cons_self p ps)) h.1
      rw [show (p :: ps).length = ps.length + 1 from rfl, List.drop_succ_cons,
        firstDigitRun_cons_not_digit hc]
      exact ih (fun q hq => hp q (List.mem_cons_of_mem _ hq)) cs' h.2

lemma digitsRun_some {cs d : List Char} (h : digitsRun cs = some d) :
    firstDigitRun cs = some d := by
  cases cs with
  | nil => simp [digitsRun] at h
  | cons c cs' =>
    cases hd : c.isDigit with
    | true =>
      simp only [digitsRun, List.takeWhile_cons, hd, if_true] at h
      simp only [List.isEmpty_cons, if_false] at h
      simp only [firstDigitRun, hd, if_true, List.takeWhile_cons]
      exact h
    | false =>
      simp [digitsRun, List.takeWhile_cons, hd] at h

lemma digitsRun_of_digit (c : Char) (cs : List Char) (h : c.isDigit = true) :
    digitsRun (c :: cs) = some ((c :: cs).takeWhile Char.isDigit) := by
  simp [digitsRun, List.takeWhile_cons, h]

lemma startsWithCI_false_of_digit (c : Char) (cs : List Char)
    (h : c.isDigit = true) : startsWithCI meoChars (c :: cs) = false := by
  have hm : (c == 'm') = false := by
    cases he : c == 'm' with
    | true =>
      have : c = 'm' := by exact beq_iff_eq.mp he
      subst this
      exact absurd h (by decide)
    | false => rfl
  simp [startsWithCI, meoChars, asciiLower_of_isDigit c h, hm]

lemma meoChars_not_digit : ∀ p ∈ meoChars, p.isDigit = false := by decide

lemma tryFromF_sound : ∀ (f : Nat) (cs d : List Char),
    tryFromF f cs = some d → firstDigitRun cs = some d := by
  intro f
  induction f with
  | zero => intro cs d h; simp [tryFromF] at h
  | succ f ih =>
    intro cs d h
    unfold tryFromF at h
    cases hsw : startsWithCI meoChars cs with
    | false =>
      rw [hsw] at h
      simp only [Bool.false_eq_true, if_false, Option.orElse] at h
      exact digitsRun_some h
    | true =>
      rw [hsw] at h
      simp only [if_true] at h
      cases hdrop : cs.drop 8 with
      | nil =>
        rw [hdrop] at h
        simp only [Option.orElse] at h
        exact digitsRun_some h
      | cons c r9 =>
        rw [hdrop] at h
        dsimp only at h
        have hskip : firstDigitRun cs = firstDigitRun (c :: r9) := by
          have := startsWithCI_skip meoChars meoChars_not_digit cs hsw
          rw [this]
          rw [show meoChars.length = 8 from rfl, hdrop]
        by_cases hsep : sepCh c = true
        · rw [if_pos hsep] at h
          cases h9 : tryFromF f r9 with
          | some d9 =>
            rw [h9] at h
            simp only [Option.orElse] at h
            cases h
            rw [hskip, firstDigitRun_cons_not_digit (sep_not_digit hsep)]
            exact ih r9 d h9
          | none =>
            rw [h9] at h
            simp only [Option.orElse] at h
            cases h8 : tryFromF f (c :: r9) with
            | some d8 =>
              rw [h8] at h
              simp only at h
              cases h
              rw [hskip]
              exact ih (c :: r9) d h8
            | none =>
              rw [h8] at h
              simp only [Option.orElse] at h
              exact digitsRun_some h
        · rw [if_neg hsep] at h
          cases h8 : tryFromF f (c :: r9) with
          | some d8 =>
            rw [h8] at h
            simp only [Option.orElse] at h
            cases h
            rw [hskip]
            exact ih (c :: r9) d h8
          | none =>
            rw [h8] at h
            simp only [Option.orElse] at h
            exact digitsRun_some h

lemma searchCode_eq_firstDigitRun : ∀ cs, searchCode cs = firstDigitRun cs := by
  intro cs
  induction cs with
  | nil => rfl
  | cons c cs ih =>
    unfold searchCode
    cases hd : c.isDigit with
    | true =>
      have ht : tryFromF (cs.length + 1) (c :: cs) = digitsRun (c :: cs) := by
        unfold tryFromF
        rw [startsWithCI_false_of_digit c cs hd]
        simp [Option.orElse]
      rw [ht, digitsRun_of_digit c cs hd]
      simp only [Option.orElse]
      simp [firstDigitRun, hd]
    | false =>
      cases ht : tryFromF (cs.length + 1) (c :: cs) with
      | some d =>
        simp only [ht, Option.orElse]
        exact (tryFromF_sound (cs.length + 1) (c :: cs) d ht).symm
      | none =>
        simp only [ht, Option.orElse]
        rw [firstDigitRun_cons_not_digit hd]
        exact ih

/-- The permissive parser of the axios revision (unnamed part 001, line 68) —
the variant that realizes the spec's description-parser contract — extracts
`4889` from each of `"MEOSTORE-4889"`, `"MEOSTORE4889"`, `"MEOSTORE 4889"`
and `"4889"`, nothing from `"no digits here"`, and in general returns exactly
the integer value of the first digit run of the description (every digit run
is acceptable to `(?:MEOSTORE[-\s]?)*(\d+)` since the prefix part may match
zero times), or nothing when the description contains no digit. -/
theorem description_parser_extracts_first_digit_run :
    extractOrderCode "MEOSTORE-4889" = some 4889 ∧
    extractOrderCode "MEOSTORE4889" = some 4889 ∧
    extractOrderCode "MEOSTORE 4889" = some 4889 ∧
    extractOrderCode "4889" = some 4889 ∧
    extractOrderCode "no digits here" = none ∧
    ∀ s, extractOrderCode s = firstDigitRunSpec s :=
  ⟨by decide, by decide, by decide, by decide, by decide,
   fun s => by rw [extractOrderCode, firstDigitRunSpec, searchCode_eq_firstDigitRun]⟩

/-- Claim C2 (evaluated at the failing inputs): the parser the server.js
webhook handler actually uses, `desc.match(/MEOSTORE-?(\d+)/i)` (line 182),
requires the `MEOSTORE` prefix with at most a single hyphen after it, so it
extracts nothing from `"MEOSTORE 4889"` and from bare `"4889"` — both of
which the claim (and the spec, §4.2/§8) say must extract `4889`, and both of
which the repository's own permissive revision (`extractOrderCode`, unnamed
part 001) does extract.  The prefix forms do work. -/
theorem strict_parser_misses_space_and_bare_forms :
    searchStrict "MEOSTORE 4889".toList = none ∧
    searchStrict "4889".toList = none ∧
    (searchStrict "MEOSTORE-4889".toList).map List.asString = some "4889" ∧
    (searchStrict "MEOSTORE4889".toList).map List.asString = some "4889" ∧
    searchStrict "no digits here".toList = none ∧
    extractOrderCode "MEOSTORE 4889" = some 4889 ∧
    extractOrderCode "4889" = some 4889 := by
  decide

/-! ### C10: exactly which headers the verifier's regex accepts -/

lemma digit_ne_t {c : Char} (h : c.isDigit = true) : c ≠ 't' := by
  intro hc
  subst hc
  exact absurd h (by decide)

lemma hexLower_ne_t {c : Char} (h : isHexLower c = true) : c ≠ 't' := by
  intro hc
  subst hc
  exact absurd h (by decide)

lemma sigAt_none_of_head_ne {c : Char} {cs : List Char} (h : c ≠ 't') :
    sigAt (c :: cs) = none := by
  cases cs with
  | nil => rfl
  | cons c2 rest =>
    show (if (decide (c = 't') && decide (c2 = '=')) = true then sigAfterTEq rest
      else none) = none
    rw [if_neg]
    simp [h]

lemma searchSig_skip : ∀ (xs ys : List Char), (∀ c ∈ xs, c ≠ 't') →
    searchSig (xs ++ ys) = searchSig ys := by
  intro xs
  induction xs with
  | nil => intro ys _; rfl
  | cons x xs ih =>
    intro ys hx
    show (sigAt (x :: (xs ++ ys))).orElse _ = _
    rw [sigAt_none_of_head_ne (hx x (List.mem_cons_self x xs))]
    simp only [Option.orElse]
    exact ih ys fun c hc => hx c (List.mem_cons_of_mem _ hc)

lemma searchSig_none_of_no_t {l : List Char} (h : ∀ c ∈ l, c ≠ 't') :
    searchSig l = none := by
  have := searchSig_skip l [] h
  rwa [List.append_nil] at this

lemma takeWhile_append_stop {p : Char → Bool} : ∀ (xs : List Char) (y : Char)
    (ys : List Char), (∀ c ∈ xs, p c = true) → p y = false →
    (xs ++ y :: ys).takeWhile p = xs ∧ (xs ++ y :: ys).dropWhile p = y :: ys := by
  intro xs
  induction xs with
  | nil =>
    intro y ys _ hy
    simp [List.takeWhile_cons, List.dropWhile_cons, hy]
  | cons x xs ih =>
    intro y ys hall hy
    have hx : p x = true := hall x (List.mem_cons_self x xs)
    have := ih y ys (fun c hc => hall c (List.mem_cons_of_mem _ hc)) hy
    simp [List.takeWhile_cons, List.dropWhile_cons, hx, this.1, this.2]

/-- For an all-digit, non-empty `t`, the tail `t=<t>` of a header matches
nothing: the digit run is consumed and no `,v1=` follows. -/
lemma searchSig_t_eq_digits_none {t : List Char} (hne : t ≠ [])
    (hall : ∀ c ∈ t, c.isDigit = true) : searchSig ('t' :: '=' :: t) = none := by
  have htake : t.takeWhile Char.isDigit = t := List.takeWhile_eq_self_iff.mpr hall
  have hdrop : t.dropWhile Char.isDigit = [] := List.dropWhile_eq_nil_iff.mpr hall
  have hat : sigAt ('t' :: '=' :: t) = none := by
    show (if (decide ('t' = 't') && decide ('=' = '=')) = true then sigAfterTEq t
      else none) = none
    rw [if_pos (by decide)]
    unfold sigAfterTEq
    simp only [htake, hdrop]
    rw [if_neg (by simp [List.isEmpty_iff, hne])]
  show (sigAt ('t' :: '=' :: t)).orElse _ = _
  rw [hat]
  simp only [Option.orElse]
  exact searchSig_none_of_no_t fun c hc => by
    rcases List.mem_cons.mp hc with rfl | hc'
    · decide
    · exact digit_ne_t (hall c hc')

lemma sigAfterTEq_some {rest d h : List Char} (hs : sigAfterTEq rest = some (d, h)) :
    ∃ post, rest = d ++ ',' :: 'v' :: '1' :: '=' :: (h ++ post) ∧
      d ≠ [] ∧ (∀ c ∈ d, c.isDigit = true) ∧
      h ≠ [] ∧ (∀ c ∈ h, isHexLower c = true) := by
  unfold sigAfterTEq at hs
  by_cases he : (rest.takeWhile Char.isDigit).isEmpty = true
  · rw [if_pos he] at hs
    exact absurd hs (by simp)
  · rw [if_neg he] at hs
    cases hdw : rest.dropWhile Char.isDigit with
    | nil => rw [hdw] at hs; exact absurd hs (by simp)
    | cons c1 r1 =>
      cases r1 with
      | nil => rw [hdw] at hs; exact absurd hs (by simp)
      | cons c2 r2 =>
        cases r2 with
        | nil => rw [hdw] at hs; exact absurd hs (by simp)
        | cons c3 r3 =>
          cases r3 with
          | nil => rw [hdw] at hs; exact absurd hs (by simp)
          | cons c4 rest3 =>
            rw [hdw] at hs
            dsimp only at hs
            by_cases hcond :
                (decide (c1 = ',') && decide (c2 = 'v') && decide (c3 = '1')
                  && decide (c4 = '=')) = true
            · rw [if_pos hcond] at hs
              simp only [Bool.and_eq_true, decide_eq_true_eq] at hcond
              obtain ⟨⟨⟨rfl, rfl⟩, rfl⟩, rfl⟩ := hcond
              by_cases hhe : (rest3.takeWhile isHexLower).isEmpty = true
              · rw [if_pos hhe] at hs
                exact absurd hs (by simp)
              · rw [if_neg hhe] at hs
                have hdh := Option.some.inj hs
                obtain ⟨rfl, rfl⟩ := Prod.mk.injEq .. ▸ And.intro
                  (congrArg Prod.fst hdh) (congrArg Prod.snd hdh)
                refine ⟨rest3.dropWhile isHexLower, ?_, ?_, ?_, ?_, ?_⟩
                · conv_lhs => rw [← List.takeWhile_append_dropWhile
                    (p := Char.isDigit) (l := rest)]
                  rw [hdw, List.takeWhile_append_dropWhile]
                · simpa [List.isEmpty_iff] using he
                · exact fun c hc => List.mem_takeWhile_imp hc
                · simpa [List.isEmpty_iff] using hhe
                · exact fun c hc => List.mem_takeWhile_imp hc
            · rw [if_neg hcond] at hs
              exact absurd hs (by simp)

lemma sigAt_some {cs d h : List Char} (hs : sigAt cs = some (d, h)) :
    ∃ rest, cs = 't' :: '=' :: rest ∧ sigAfterTEq rest = some (d, h) := by
  cases cs with
  | nil => exact absurd hs (by simp [sigAt])
  | cons c1 r1 =>
    cases r1 with
    | nil => exact absurd hs (by simp [sigAt])
    | cons c2 rest =>
      have hs' : (if (decide (c1 = 't') && decide (c2 = '=')) = true
          then sigAfterTEq rest else none) = some (d, h) := hs
      by_cases hcond : (decide (c1 = 't') && decide (c2 = '=')) = true
      · rw [if_pos hcond] at hs'
        simp only [Bool.and_eq_true, decide_eq_true_eq] at hcond
        obtain ⟨rfl, rfl⟩ := hcond
        exact ⟨rest, rfl, hs'⟩
      · rw [if_neg hcond] at hs'
        exact absurd hs' (by simp)

lemma searchSig_some_shape : ∀ {l d h : List Char}, searchSig l = some (d, h) →
    ∃ pre post, l = pre ++ 't' :: '=' :: (d ++ ',' :: 'v' :: '1' :: '=' :: (h ++ post)) ∧
      d ≠ [] ∧ (∀ c ∈ d, c.isDigit = true) ∧
      h ≠ [] ∧ (∀ c ∈ h, isHexLower c = true) := by
  intro l
  induction l with
  | nil => intro d h hs; exact absurd hs (by simp [searchSig])
  | cons c cs ih =>
    intro d h hs
    have hs' : (sigAt (c :: cs)).orElse (fun _ => searchSig cs) = some (d, h) := hs
    cases hat : sigAt (c :: cs) with
    | some p =>
      rw [hat] at hs'
      simp only [Option.orElse] at hs'
      cases hs'
      obtain ⟨rest, hcs, hafter⟩ := sigAt_some hat
      obtain ⟨post, hrest, hd, hda, hh, hha⟩ := sigAfterTEq_some hafter
      exact ⟨[], post, by rw [hcs, hrest]; rfl, hd, hda, hh, hha⟩
    | none =>
      rw [hat] at hs'
      simp only [Option.orElse] at hs'
      obtain ⟨pre, post, hl, hd, hda, hh, hha⟩ := ih hs'
      exact ⟨c :: pre, post, by rw [List.cons_append, hl], hd, hda, hh, hha⟩

lemma verify_false_of_parse_none (hmacHex : String → String → String)
    (jparse : String → Option Json) (env : Env) (rawBody sigHeader secret : String)
    (hdev : env.nodeEnv ≠ "development") (hp : parseSigHeader sigHeader = none) :
    verifyCassoSignature hmacHex jparse env rawBody sigHeader secret = .ok false := by
  unfold verifyCassoSignature
  rw [if_neg hdev]
  by_cases hz : sigHeader = "" ∨ secret = ""
  · rw [if_pos hz]
  · rw [if_neg hz, hp]

lemma asciiLower_of_isHexLower {c : Char} (h : isHexLower c = true) :
    asciiLower c = c := by
  simp only [isHexLower, Bool.or_eq_true, Bool.and_eq_true, decide_eq_true_eq] at h
  rcases h with h | ⟨h1, h2⟩
  · exact asciiLower_of_isDigit c h
  · unfold asciiLower
    rw [if_neg]
    intro ⟨ha, hb⟩
    have h1' : 97 ≤ c.val.toNat := h1
    have hb' : c.val.toNat ≤ 90 := hb
    omega

lemma map_asciiLower_fix {l : List Char} (h : ∀ c ∈ l, asciiLower c = c) :
    l.map asciiLower = l := by
  induction l with
  | nil => rfl
  | cons c cs ih =>
    rw [List.map_cons, h c (List.mem_cons_self c cs),
      ih fun x hx => h x (List.mem_cons_of_mem _ hx)]

lemma length_takeWhile_lt {p : Char → Bool} : ∀ {l : List Char},
    (∃ c ∈ l, p c = false) → (l.takeWhile p).length < l.length := by
  intro l
  induction l with
  | nil => rintro ⟨c, hc, _⟩; cases hc
  | cons x xs ih =>
    rintro ⟨c, hc, hpc⟩
    cases hx : p x with
    | false => simp [List.takeWhile_cons, hx]
    | true =>
      rcases List.mem_cons.mp hc with rfl | hc'
      · rw [hx] at hpc; cases hpc
      · have := ih ⟨c, hc', hpc⟩
        simp only [List.takeWhile_cons, hx, if_true, List.length_cons]
        omega

lemma asString_data (l : List Char) : (l.asString).data = l := rfl

lemma cons_asString_ne_empty (c : Char) (cs : List Char) : (c :: cs).asString ≠ "" := by
  intro h
  have hd := congrArg String.data h
  rw [asString_data] at hd
  exact List.cons_ne_nil _ _ hd

lemma parseSigHeader_asString (l : List Char) :
    parseSigHeader l.asString =
      (searchSig l).map fun p => (p.1.asString, p.2.asString) := rfl

/-- C10 part: a header listing `v1=` before `t=` never matches the regex, so
the verifier rejects it whatever the digest value. -/
lemma verify_false_v1_before_t (hmacHex : String → String → String)
    (jparse : String → Option Json) (env : Env) (rawBody secret : String)
    (t h : List Char) (hdev : env.nodeEnv ≠ "development") (hne : t ≠ [])
    (hta : ∀ c ∈ t, c.isDigit = true) (hha : ∀ c ∈ h, isHexLower c = true) :
    verifyCassoSignature hmacHex jparse env rawBody
      ('v' :: '1' :: '=' :: (h ++ ',' :: 't' :: '=' :: t)).asString secret
      = .ok false := by
  apply verify_false_of_parse_none _ _ _ _ _ _ hdev
  rw [parseSigHeader_asString]
  have hsplit : 'v' :: '1' :: '=' :: (h ++ ',' :: 't' :: '=' :: t) =
      ('v' :: '1' :: '=' :: (h ++ [','])) ++ ('t' :: '=' :: t) := by
    simp
  rw [hsplit, searchSig_skip _ _ ?hx, searchSig_t_eq_digits_none hne hta]
  · rfl
  case hx =>
    intro c hc
    simp only [List.mem_cons, List.mem_append, List.mem_singleton] at hc
    rcases hc with rfl | rfl | rfl | hch | rfl | hfalse
    · decide
    · decide
    · decide
    · exact hexLower_ne_t (hha c hch)
    · decide
    · exact absurd hfalse (List.not_mem_nil c)

/-- C10 part: a space after the comma (`t=…, v1=…`) breaks the literal `,v1=`
of the regex, so the verifier rejects the header whatever the digest value. -/
lemma verify_false_space_after_comma (hmacHex : String → String → String)
    (jparse : String → Option Json) (env : Env) (rawBody secret : String)
    (t h : List Char) (hdev : env.nodeEnv ≠ "development") (hne : t ≠ [])
    (hta : ∀ c ∈ t, c.isDigit = true) (hha : ∀ c ∈ h, isHexLower c = true) :
    verifyCassoSignature hmacHex jparse env rawBody
      ('t' :: '=' :: (t ++ ',' :: ' ' :: 'v' :: '1' :: '=' :: h)).asString secret
      = .ok false := by
  apply verify_false_of_parse_none _ _ _ _ _ _ hdev
  rw [parseSigHeader_asString]
  obtain ⟨htake, hdrop⟩ :=
    takeWhile_append_stop t ',' (' ' :: 'v' :: '1' :: '=' :: h) hta (by decide)
  have hat : sigAt ('t' :: '=' :: (t ++ ',' :: ' ' :: 'v' :: '1' :: '=' :: h))
      = none := by
    show (if (decide ('t' = 't') && decide ('=' = '=')) = true
      then sigAfterTEq (t ++ ',' :: ' ' :: 'v' :: '1' :: '=' :: h) else none) = none
    rw [if_pos (by decide)]
    unfold sigAfterTEq
    simp only [htake, hdrop]
    rw [if_neg (by simp [List.isEmpty_iff, hne])]
    rw [if_neg (by decide)]
  have : searchSig ('t' :: '=' :: (t ++ ',' :: ' ' :: 'v' :: '1' :: '=' :: h))
      = none := by
    show (sigAt _).orElse _ = _
    rw [hat]
    simp only [Option.orElse]
    apply searchSig_none_of_no_t
    intro c hc
    simp only [List.mem_cons, List.mem_append] at hc
    rcases hc with rfl | hct | rfl | rfl | rfl | rfl | rfl | hch
    · decide
    · exact digit_ne_t (hta c hct)
    · decide
    · decide
    · decide
    · decide
    · decide
    · exact hexLower_ne_t (hha c hch)
  rw [this]
  rfl

/-- C10 part: a header whose digest field is the correct digest except that at
least one hex digit is uppercased is rejected: either the capture fails
entirely, or the captured `v1` is a strict prefix of the digest and the string
comparison fails. -/
lemma verify_false_uppercase_digest (hmacHex : String → String → String)
    (jparse : String → Option Json) (env : Env) (rawBody secret : String)
    (t Hl : List Char) (body : Json)
    (hdev : env.nodeEnv ≠ "development") (hne : t ≠ [])
    (hta : ∀ c ∈ t, c.isDigit = true)
    (hjp : jparse rawBody = some body) (hnn : body ≠ .null)
    (hD : hmacHex secret
        (t.asString ++ "." ++ stringify (sortObjDataByKey (dataObjOf body)))
      = (Hl.map asciiLower).asString)
    (hhex : ∀ c ∈ Hl, isHexLower (asciiLower c) = true)
    (hup : Hl.map asciiLower ≠ Hl) :
    verifyCassoSignature hmacHex jparse env rawBody
      ('t' :: '=' :: (t ++ ',' :: 'v' :: '1' :: '=' :: Hl)).asString secret
      = .ok false := by
  have hne_t : ∀ c ∈ Hl, c ≠ 't' := by
    intro c hcm hct
    subst hct
    exact absurd (hhex 't' hcm) (by decide)
  obtain ⟨htake, hdrop⟩ :=
    takeWhile_append_stop t ',' ('v' :: '1' :: '=' :: Hl) hta (by decide)
  by_cases hse : (Hl.takeWhile isHexLower).isEmpty = true
  · -- the capture fails at the uppercase head of the digest: no match at all
    apply verify_false_of_parse_none _ _ _ _ _ _ hdev
    rw [parseSigHeader_asString]
    have hat : sigAt ('t' :: '=' :: (t ++ ',' :: 'v' :: '1' :: '=' :: Hl)) = none := by
      show (if (decide ('t' = 't') && decide ('=' = '=')) = true
        then sigAfterTEq (t ++ ',' :: 'v' :: '1' :: '=' :: Hl) else none) = none
      rw [if_pos (by decide)]
      unfold sigAfterTEq
      simp only [htake, hdrop]
      rw [if_neg (by simp [List.isEmpty_iff, hne])]
      rw [if_pos (by decide)]
      rw [if_pos hse]
    have hsearch : searchSig ('t' :: '=' :: (t ++ ',' :: 'v' :: '1' :: '=' :: Hl))
        = none := by
      show (sigAt _).orElse _ = _
      rw [hat]
      simp only [Option.orElse]
      apply searchSig_none_of_no_t
      intro c hc
      simp only [List.mem_cons, List.mem_append] at hc
      rcases hc with rfl | hct | rfl | rfl | rfl | rfl | hch
      · decide
      · exact digit_ne_t (hta c hct)
      · decide
      · decide
      · decide
      · decide
      · exact hne_t c hch
    rw [hsearch]
    rfl
  · -- the capture succeeds but is a strict prefix of the digest
    have hat : sigAt ('t' :: '=' :: (t ++ ',' :: 'v' :: '1' :: '=' :: Hl))
        = some (t, Hl.takeWhile isHexLower) := by
      show (if (decide ('t' = 't') && decide ('=' = '=')) = true
        then sigAfterTEq (t ++ ',' :: 'v' :: '1' :: '=' :: Hl) else none)
        = some (t, Hl.takeWhile isHexLower)
      rw [if_pos (by decide)]
      unfold sigAfterTEq
      simp only [htake, hdrop]
      rw [if_neg (by simp [List.isEmpty_iff, hne])]
      rw [if_pos (by decide)]
      rw [if_neg hse]
    have hsearch : searchSig ('t' :: '=' :: (t ++ ',' :: 'v' :: '1' :: '=' :: Hl))
        = some (t, Hl.takeWhile isHexLower) := by
      show (sigAt _).orElse _ = _
      rw [hat]
      rfl
    have hparse : parseSigHeader
        ('t' :: '=' :: (t ++ ',' :: 'v' :: '1' :: '=' :: Hl)).asString
        = some (t.asString, (Hl.takeWhile isHexLower).asString) := by
      rw [parseSigHeader_asString, hsearch]
      rfl
    -- a strict-prefix capture: some character of Hl is not lowercase hex
    have hexists : ∃ c ∈ Hl, isHexLower c = false := by
      by_contra hall
      push_neg at hall
      apply hup
      apply map_asciiLower_fix
      intro c hc
      have := hall c hc
      rcases hb : isHexLower c with _ | _
      · rw [hb] at this; exact absurd rfl this
      · exact asciiLower_of_isHexLower hb
    have hlt : (Hl.takeWhile isHexLower).length < Hl.length :=
      length_takeWhile_lt hexists
    unfold verifyCassoSignature
    rw [if_neg hdev]
    by_cases hz : ('t' :: '=' :: (t ++ ',' :: 'v' :: '1' :: '=' :: Hl)).asString = ""
        ∨ secret = ""
    · rw [if_pos hz]
    · rw [if_neg hz, hparse, hjp]
      cases body
      · exact absurd rfl hnn
      all_goals
        dsimp only
        rw [hD]
        suffices hb : ((Hl.map asciiLower).asString
            == (Hl.takeWhile isHexLower).asString) = false by rw [hb]
        apply beq_eq_false_iff_ne.mpr
        intro heq
        have hdata := congrArg String.data heq
        rw [asString_data, asString_data] at hdata
        have hlen := congrArg List.length hdata
        rw [List.length_map] at hlen
        omega

/-- Claim C10: the header is accepted (a `t`/`v1` pair extracted) only when it
contains the exact substring `t=<digits>,v1=<lowercase hex digits>`, `t` pair
immediately before the `v1` pair with no intervening whitespace; and the
verifier rejects every header that lists `v1` before `t`, inserts a space
after the comma, or uppercases any hex digit of the digest — even when the
digest value itself is correct. -/
theorem header_accepted_only_exact_t_v1_substring :
    (∀ (s t v1 : String), parseSigHeader s = some (t, v1) →
      ∃ pre post, s.toList =
          pre ++ 't' :: '=' :: (t.toList ++ ',' :: 'v' :: '1' :: '=' :: (v1.toList ++ post)) ∧
        t.toList ≠ [] ∧ (∀ c ∈ t.toList, c.isDigit = true) ∧
        v1.toList ≠ [] ∧ (∀ c ∈ v1.toList, isHexLower c = true)) ∧
    (∀ (hmacHex : String → String → String) (jparse : String → Option Json)
        (env : Env) (rawBody secret : String) (t h : List Char),
      env.nodeEnv ≠ "development" → t ≠ [] → (∀ c ∈ t, c.isDigit = true) →
      (∀ c ∈ h, isHexLower c = true) →
      verifyCassoSignature hmacHex jparse env rawBody
        ('v' :: '1' :: '=' :: (h ++ ',' :: 't' :: '=' :: t)).asString secret
        = .ok false) ∧
    (∀ (hmacHex : String → String → String) (jparse : String → Option Json)
        (env : Env) (rawBody secret : String) (t h : List Char),
      env.nodeEnv ≠ "development" → t ≠ [] → (∀ c ∈ t, c.isDigit = true) →
      (∀ c ∈ h, isHexLower c = true) →
      verifyCassoSignature hmacHex jparse env rawBody
        ('t' :: '=' :: (t ++ ',' :: ' ' :: 'v' :: '1' :: '=' :: h)).asString secret
        = .ok false) ∧
    (∀ (hmacHex : String → String → String) (jparse : String → Option Json)
        (env : Env) (rawBody secret : String) (t Hl : List Char) (body : Json),
      env.nodeEnv ≠ "development" → t ≠ [] → (∀ c ∈ t, c.isDigit = true) →
      jparse rawBody = some body → body ≠ .null →
      hmacHex secret
          (t.asString ++ "." ++ stringify (sortObjDataByKey (dataObjOf body)))
        = (Hl.map asciiLower).asString →
      (∀ c ∈ Hl, isHexLower (asciiLower c) = true) →
      Hl.map asciiLower ≠ Hl →
      verifyCassoSignature hmacHex jparse env rawBody
        ('t' :: '=' :: (t ++ ',' :: 'v' :: '1' :: '=' :: Hl)).asString secret
        = .ok false) := by
  refine ⟨?_, verify_false_v1_before_t, verify_false_space_after_comma,
    verify_false_uppercase_digest⟩
  intro s t v1 hp
  have hp' : (searchSig s.toList).map (fun p => (p.1.asString, p.2.asString))
      = some (t, v1) := hp
  cases hss : searchSig s.toList with
  | none => rw [hss] at hp'; exact absurd hp' (by simp)
  | some p =>
    obtain ⟨d, h⟩ := p
    rw [hss] at hp'
    simp only [Option.map_some'] at hp'
    have ht : d.asString = t := congrArg Prod.fst (Option.some.inj hp')
    have hv : h.asString = v1 := congrArg Prod.snd (Option.some.inj hp')
    have hts : t.toList = d := by rw [← ht]; rfl
    have hvs : v1.toList = h := by rw [← hv]; rfl
    obtain ⟨pre, post, hshape, hd, hda, hh, hha⟩ := searchSig_some_shape hss
    rw [hts, hvs]
    exact ⟨pre, post, hshape, hd, hda, hh, hha⟩

/-- Witness for C10: the shape of the accepted header `t=1,v1=ab`, and
concrete rejections of `v1=ab,t=1`, `t=1, v1=ab`, and `t=1,v1=aB` (the last
with digest correct up to the uppercased `B`), from the claim theorem. -/
theorem header_accepted_only_exact_t_v1_substring_witness :
    (∃ pre post, ("t=1,v1=ab" : String).toList =
        pre ++ 't' :: '=' :: (("1" : String).toList ++
          ',' :: 'v' :: '1' :: '=' :: (("ab" : String).toList ++ post)) ∧
      ("1" : String).toList ≠ [] ∧ (∀ c ∈ ("1" : String).toList, c.isDigit = true) ∧
      ("ab" : String).toList ≠ [] ∧ (∀ c ∈ ("ab" : String).toList, isHexLower c = true)) ∧
    verifyCassoSignature (fun _ _ => "ab") (fun _ => some (.obj .nil))
      ⟨"production", "s"⟩ "raw"
      ('v' :: '1' :: '=' :: (['a', 'b'] ++ ',' :: 't' :: '=' :: ['1'])).asString "s"
      = .ok false ∧
    verifyCassoSignature (fun _ _ => "ab") (fun _ => some (.obj .nil))
      ⟨"production", "s"⟩ "raw"
      ('t' :: '=' :: (['1'] ++ ',' :: ' ' :: 'v' :: '1' :: '=' :: ['a', 'b'])).asString "s"
      = .ok false ∧
    verifyCassoSignature (fun _ _ => "ab") (fun _ => some (.obj .nil))
      ⟨"production", "s"⟩ "raw"
      ('t' :: '=' :: (['1'] ++ ',' :: 'v' :: '1' :: '=' :: ['a', 'B'])).asString "s"
      = .ok false :=
  ⟨header_accepted_only_exact_t_v1_substring.1 "t=1,v1=ab" "1" "ab" rfl,
   header_accepted_only_exact_t_v1_substring.2.1 (fun _ _ => "ab")
     (fun _ => some (.obj .nil)) ⟨"production", "s"⟩ "raw" "s" ['1'] ['a', 'b']
     (by decide) (by decide) (by decide) (by decide),
   header_accepted_only_exact_t_v1_substring.2.2.1 (fun _ _ => "ab")
     (fun _ => some (.obj .nil)) ⟨"production", "s"⟩ "raw" "s" ['1'] ['a', 'b']
     (by decide) (by decide) (by decide) (by decide),
   header_accepted_only_exact_t_v1_substring.2.2.2 (fun _ _ => "ab")
     (fun _ => some (.obj .nil)) ⟨"production", "s"⟩ "raw" "s" ['1'] ['a', 'B']
     (.obj .nil) (by decide) (by decide) (by decide) rfl
     (fun hnu => Json.noConfusion hnu) rfl (by decide) (by decide)⟩
